import Mathlib

/-!
Verification of the Tonic-Solfa page parser (`src/pythonParse/parsepdf.py`).

The Python pipeline is shallowly embedded here:
* `mergeGlyphs` models the glyph-merging loop of `extract_text_with_coordinates`
  (lines 80-101): glyphs arrive sorted by (y desc, x asc) and are greedily
  coalesced while the horizontal gap is < 20 and the vertical gap is < 5.
* `classify_and_annotate_text` models the function of the same name
  (lines 111-245): words are grouped into lines by equal `y`, lines are
  classified note / octave / lyric by lexical tests, note-line words are
  segmented per character by the combined regex
  `([│0-9]|[drmfslt-]|[:.,|])` with `re.IGNORECASE`, octave-line words become
  one octave token each, lyric lines become a single lyric token.
* `associate_symbols_to_notes` models the post-pass of the same name
  (lines 248-291).

Coordinates are modelled as `Int` (the Python code rounds them to ints before
any of the modelled logic runs).  Text is `List Char`.  `re.IGNORECASE` is
modelled by ASCII lower-casing (`Char.toLower`), and Python's `str.strip` /
`\s` by `Char.isWhitespace`; the inputs appearing in the claims are ASCII, so
the modelled classes agree with Python's on them.
-/

/-- A positioned text fragment: used both for raw glyphs and for merged words
(the Python code stores both as rows `{text, x, y}` of a DataFrame). -/
structure Word where
  text : List Char
  x : Int
  y : Int
deriving DecidableEq

/-- Token kinds produced by the pipeline (the `type` column).  `continuation`
is listed because `associate_symbols_to_notes` tests for it, even though the
segmenter never emits it. -/
inductive TokKind where
  | note
  | rhythm
  | octave
  | continuation
  | lyric
deriving DecidableEq

/-- A classified token: one row of the annotated DataFrame.  `id` is `""` for
lyric tokens (the Python code stores the empty string there). -/
structure Token where
  text : List Char
  x : Int
  y : Int
  type : TokKind
  id : String
  associated_id : Option String
deriving DecidableEq

/-- The three per-kind id counters (`note_id_counter`, `rhythm_id_counter`,
`octave_id_counter` in the source, lines 125-127). -/
structure Counters where
  note : Nat
  rhythm : Nat
  octave : Nat
deriving DecidableEq

def initCounters : Counters := ⟨0, 0, 0⟩

/-- `f"note_{n}"` and friends: the id string for a kind name and a counter
value.  `Nat.repr` is exactly Python's decimal formatting of a nonnegative
int. -/
def mkId (kind : String) (n : Nat) : String := kind ++ "_" ++ Nat.repr n

/-- Characters matched by `note_regex = r'[drmfslt-]'` under `re.IGNORECASE`. -/
def isNoteChar (c : Char) : Bool :=
  (['d', 'r', 'm', 'f', 's', 'l', 't', '-'] : List Char).contains c.toLower

/-- Characters matched by `octave_regex = r'[│0-9]'`. -/
def isOctaveChar (c : Char) : Bool := c.isDigit || c == '│'

/-- Characters matched by `rhythm_regex = r'[:.,|]'`. -/
def isRhythmChar (c : Char) : Bool :=
  ([':', '.', ',', '|'] : List Char).contains c

/-- Characters matched by the combined regex
`({octave_regex}|{note_regex}|{rhythm_regex})`; every match of that regex is a
single character from this union. -/
def isSymbolChar (c : Char) : Bool := isOctaveChar c || isNoteChar c || isRhythmChar c

/-- Python's `str.strip()` on the modelled character lists. -/
def stripChars (s : List Char) : List Char :=
  ((s.dropWhile Char.isWhitespace).reverse.dropWhile Char.isWhitespace).reverse

/-- Python's `' '.join(...)` used to build a line's concatenated text. -/
def joinSpace : List (List Char) → List Char
  | [] => []
  | [t] => t
  | t :: ts => t ++ (' ' :: joinSpace ts)

/-- Line kinds assigned by `classify_and_annotate_text` (lines 136-140). -/
inductive LineType where
  | note
  | octave
  | lyric
deriving DecidableEq

/-- Line classification (lines 136-140): a line containing any solfa letter or
hyphen is a note line; otherwise a nonempty line of digits, octave bars and
whitespace only (`^[0-9│\s]+$`) is an octave line; otherwise lyric. -/
def lineTypeOf (lineText : List Char) : LineType :=
  if lineText.any isNoteChar then LineType.note
  else if lineText ≠ [] ∧ lineText.all (fun c => isOctaveChar c || c.isWhitespace) then
    LineType.octave
  else LineType.lyric

/-- A lyric token as built in the segmentation loop (empty id, no
association). -/
def lyricTok (t : List Char) (x y : Int) : Token :=
  { text := t, x := x, y := y, type := TokKind.lyric, id := "", associated_id := none }

/-- Classification of one matched symbol character (lines 184-211): solfa
letters and the hyphen become a note token with a fresh note id, rhythm
punctuation becomes a rhythm token with a fresh rhythm id, and anything else
(digits and the octave bar) falls through to a lyric token with no id. -/
def classifySymbolToken (c : Char) (x y : Int) (cnt : Counters) : Token × Counters :=
  if isNoteChar c then
    ({ text := [c], x := x, y := y, type := TokKind.note,
       id := mkId "note" (cnt.note + 1), associated_id := none },
     { cnt with note := cnt.note + 1 })
  else if isRhythmChar c then
    ({ text := [c], x := x, y := y, type := TokKind.rhythm,
       id := mkId "rhythm" (cnt.rhythm + 1), associated_id := none },
     { cnt with rhythm := cnt.rhythm + 1 })
  else
    (lyricTok [c] x y, cnt)

/-- The `re.finditer` scan over one note-line word (lines 169-223): `pending`
holds the characters seen since the previous match (in reverse).  At each
symbol character the stripped pending text is flushed as a lyric token and the
symbol is classified; at the end the stripped remainder is flushed. -/
def segGo (x y : Int) : List Char → List Char → Counters → List Token × Counters
  | [], pending, cnt =>
      let rem := stripChars pending.reverse
      (if rem = [] then [] else [lyricTok rem x y], cnt)
  | c :: cs, pending, cnt =>
      if isSymbolChar c then
        let pre := stripChars pending.reverse
        let pres := if pre = [] then [] else [lyricTok pre x y]
        let pc := classifySymbolToken c x y cnt
        let q := segGo x y cs [] pc.2
        (pres ++ pc.1 :: q.1, q.2)
      else
        segGo x y cs (c :: pending) cnt

/-- Processing of one word of a note or octave line (lines 161-241).  Empty
stripped text is skipped (`continue`).  On a note line, a word with at least
one combined-regex match is segmented by `segGo`; with no match it degrades to
a single lyric token.  On an octave line the whole word becomes one octave
token with a fresh octave id.  (Lyric lines never reach this function.) -/
def processWord (lt : LineType) (w : Word) (cnt : Counters) : List Token × Counters :=
  let t := stripChars w.text
  if t = [] then ([], cnt)
  else
    match lt with
    | LineType.note =>
        if t.any isSymbolChar then segGo w.x w.y t [] cnt
        else ([lyricTok t w.x w.y], cnt)
    | LineType.octave =>
        ([{ text := t, x := w.x, y := w.y, type := TokKind.octave,
            id := mkId "octave" (cnt.octave + 1), associated_id := none }],
         { cnt with octave := cnt.octave + 1 })
    | LineType.lyric => ([], cnt)

/-- Fold a token-and-counter producing step over a list, concatenating the
emitted tokens in order: the shape of the `for` loops that append to
`new_data` while mutating the global counters. -/
def accFold (f : α → Counters → List Token × Counters) :
    List α → Counters → List Token × Counters
  | [], cnt => ([], cnt)
  | a :: l, cnt =>
      let p := f a cnt
      let q := accFold f l p.2
      (p.1 ++ q.1, q.2)

/-- The words of the line at height `y`, in DataFrame order
(`df[df['y'] == y_coord]`). -/
def wordsAt (ws : List Word) (y : Int) : List Word :=
  ws.filter (fun w => w.y == y)

/-- The concatenated text of the line at height `y`
(`'text': ' '.join` in the groupby aggregation, line 119). -/
def lineTextOf (ws : List Word) (y : Int) : List Char :=
  joinSpace ((wordsAt ws y).map Word.text)

/-- Insertion step for sorting a line's words by `x` ascending
(`sort_values(by='x')`, line 153). -/
def insertWordByX (w : Word) : List Word → List Word
  | [] => [w]
  | v :: vs => if w.x ≤ v.x then w :: v :: vs else v :: insertWordByX w vs

def sortByX (ws : List Word) : List Word := ws.foldr insertWordByX []

/-- Insertion step for sorting line heights descending
(`sort_values(by='y', ascending=False)`, line 121). -/
def insertIntDesc (y : Int) : List Int → List Int
  | [] => [y]
  | z :: zs => if z ≤ y then y :: z :: zs else z :: insertIntDesc y zs

def sortIntDesc (l : List Int) : List Int := l.foldr insertIntDesc []

/-- The distinct line heights, first occurrences kept (the `groupby('y')`
keys). -/
def dedupKeys (l : List Int) : List Int :=
  l.foldl (fun acc v => if acc.contains v then acc else acc ++ [v]) []

/-- Processing of one whole line (lines 132-241): a lyric line is emitted as a
single lyric token carrying the joined line text and the first word's `x`; a
note or octave line processes its words in `x` order through `processWord`. -/
def processLine (ws : List Word) (y : Int) (cnt : Counters) : List Token × Counters :=
  match lineTypeOf (lineTextOf ws y) with
  | LineType.lyric =>
      match wordsAt ws y with
      | [] => ([], cnt)
      | w :: _ =>
          ([{ text := lineTextOf ws y, x := w.x, y := y, type := TokKind.lyric,
              id := "", associated_id := none }], cnt)
  | lt => accFold (processWord lt) (sortByX (wordsAt ws y)) cnt

/-- The whole of `classify_and_annotate_text` (lines 111-245): lines are
visited from top to bottom (`y` descending) with the three id counters
threaded through; the emitted rows are concatenated in order. -/
def classify_and_annotate_text (ws : List Word) : List Token :=
  (accFold (processLine ws) (sortIntDesc (dedupKeys (ws.map Word.y))) initCounters).1

/-- All note tokens of the stream, in order
(`df_copy[df_copy['type'] == 'note']`, line 257). -/
def notesOf (ts : List Token) : List Token :=
  ts.filter (fun u => u.type == TokKind.note)

/-- The linear scan for the closest note to the left on the same line
(lines 263-271): strict improvement only, so the first note attaining the
minimum positive leftward distance is kept. -/
def closestNoteLeft (notes : List Token) (t : Token) : Option Token :=
  notes.foldl
    (fun best n =>
      if n.y = t.y ∧ n.x < t.x then
        match best with
        | none => some n
        | some b => if t.x - n.x < t.x - b.x then some n else best
      else best)
    none

/-- One step of the vertical-proximity scan (lines 281-285): the first
candidate always replaces the `inf` initial distance, after which only a
strictly smaller `|Δy|` replaces the current best. -/
def stepY (t : Token) (best : Option Token) (n : Token) : Option Token :=
  match best with
  | none => some n
  | some b => if (t.y - n.y).natAbs < (t.y - b.y).natAbs then some n else best

/-- The linear scan for the vertically closest note anywhere on the page
(lines 278-285): strict improvement only, so the first note attaining the
minimum `|Δy|` is kept. -/
def closestNoteByY (notes : List Token) (t : Token) : Option Token :=
  notes.foldl (stepY t) none

/-- Association of a single row (lines 260-288): rhythm and continuation
tokens point at the nearest note to their left on their own line, octave
tokens at the vertically nearest note on the page, and every other row keeps
the `None` the column was initialised with. -/
def associateToken (notes : List Token) (t : Token) : Token :=
  match t.type with
  | TokKind.rhythm => { t with associated_id := (closestNoteLeft notes t).map Token.id }
  | TokKind.continuation => { t with associated_id := (closestNoteLeft notes t).map Token.id }
  | TokKind.octave => { t with associated_id := (closestNoteByY notes t).map Token.id }
  | _ => { t with associated_id := none }

/-- The whole of `associate_symbols_to_notes` (lines 248-291): the note list
is snapshotted once from the input, then every row is associated
independently. -/
def associate_symbols_to_notes (ts : List Token) : List Token :=
  ts.map (associateToken (notesOf ts))

/-- The glyph-merging scan of `extract_text_with_coordinates` (lines 86-101),
after the initial (y desc, x asc) sort: `cx` is the x of the last glyph merged
into the current word, `cy` the y the current word was opened with (the code
never updates `current_y` while merging), `ct` the accumulated text. -/
def mergeGo : List Word → Int → Int → List Char → List Word
  | [], cx, cy, ct => [⟨ct, cx, cy⟩]
  | g :: gs, cx, cy, ct =>
      if (g.x - cx).natAbs < 20 ∧ (g.y - cy).natAbs < 5 then
        mergeGo gs g.x cy (ct ++ g.text)
      else
        ⟨ct, cx, cy⟩ :: mergeGo gs g.x g.y g.text

/-- The glyph merger on a sorted glyph list (lines 80-101). -/
def mergeGlyphs : List Word → List Word
  | [] => []
  | g :: gs => mergeGo gs g.x g.y g.text

/-- Every glyph of the list extends the current merge run: within 20 units of
the previous glyph's x and within 5 units of the run's opening y. -/
def allClose (cx base : Int) : List Word → Bool
  | [] => true
  | g :: gs =>
      (decide ((g.x - cx).natAbs < 20) && decide ((g.y - base).natAbs < 5))
        && allClose g.x base gs

/-! Specification-side definitions used to state the theorems. -/

/-- The printed name of an id-carrying token kind, as it appears in the id
strings of the source (`note_…`, `rhythm_…`, `octave_…`). -/
def kindName : TokKind → String
  | TokKind.note => "note"
  | TokKind.rhythm => "rhythm"
  | TokKind.octave => "octave"
  | TokKind.continuation => "continuation"
  | TokKind.lyric => ""

/-- The counter of a given kind (0 for kinds that have no counter). -/
def Counters.get (cnt : Counters) : TokKind → Nat
  | TokKind.note => cnt.note
  | TokKind.rhythm => cnt.rhythm
  | TokKind.octave => cnt.octave
  | _ => 0

/-- The kinds for which the segmenter allocates sequential ids. -/
def IdKind (k : TokKind) : Prop :=
  k = TokKind.note ∨ k = TokKind.rhythm ∨ k = TokKind.octave

/-- How many tokens of kind `k` a stream contains. -/
def countKind (k : TokKind) (ts : List Token) : Nat :=
  (ts.filter (fun t => t.type == k)).length

/-- The ids of the kind-`k` tokens of a stream, in emission order. -/
def idsOfKind (k : TokKind) (ts : List Token) : List String :=
  (ts.filter (fun t => t.type == k)).map Token.id

/-- The id sequence `nm_(start+1), nm_(start+2), …, nm_(start+len)`. -/
def seqIds (nm : String) (start len : Nat) : List String :=
  (List.range len).map (fun i => mkId nm (start + i + 1))

/-- The id-allocation invariant of a token-emitting step: starting from
counters `c0`, the kind-`k` counter advances by exactly the number of kind-`k`
tokens emitted, and those tokens carry the consecutive ids starting right
after `c0`'s value. -/
def IdInv (k : TokKind) (c0 : Counters) (p : List Token × Counters) : Prop :=
  p.2.get k = c0.get k + countKind k p.1 ∧
  idsOfKind k p.1 = seqIds (kindName k) (c0.get k) (countKind k p.1)

/-- Decimal digit list of a natural number, most significant first: the
reference rendering that `Nat.repr` is proved to agree with. -/
def sdigits (n : Nat) : List Char :=
  if _h : n < 10 then [Nat.digitChar n]
  else sdigits (n / 10) ++ [Nat.digitChar (n % 10)]
decreasing_by exact Nat.div_lt_self (by omega) (by omega)

/-- The numeric value of a decimal digit character. -/
def digitVal (c : Char) : Nat := c.toNat - 48

/-- Read a most-significant-first digit list back to a number. -/
def valDigits (cs : List Char) : Nat :=
  cs.foldl (fun a c => 10 * a + digitVal c) 0


/-! ### Decimal rendering: `Nat.repr` is injective -/

lemma toDigitsCore_shift (b : Nat) : ∀ (fuel n : Nat) (ds : List Char),
    Nat.toDigitsCore b fuel n ds = Nat.toDigitsCore b fuel n [] ++ ds := by
  intro fuel
  induction fuel with
  | zero => intro n ds; simp [Nat.toDigitsCore]
  | succ f ih =>
      intro n ds
      simp only [Nat.toDigitsCore]
      by_cases h : n / b = 0
      · simp [h]
      · rw [if_neg h, if_neg h, ih (n / b) (Nat.digitChar (n % b) :: ds),
          ih (n / b) [Nat.digitChar (n % b)]]
        simp

lemma toDigitsCore_eq_sdigits : ∀ (fuel n : Nat), n < fuel →
    ∀ ds, Nat.toDigitsCore 10 fuel n ds = sdigits n ++ ds := by
  intro fuel
  induction fuel with
  | zero => intro n hn; omega
  | succ f ih =>
      intro n hn ds
      simp only [Nat.toDigitsCore]
      by_cases h : n / 10 = 0
      · have hlt : n < 10 := by omega
        rw [if_pos h, sdigits]
        simp [hlt, Nat.mod_eq_of_lt hlt]
      · have h10 : 10 ≤ n := by
          by_contra hc
          exact h (Nat.div_eq_of_lt (by omega))
        have hdiv : n / 10 < f := by
          have hlt : n / 10 < n := Nat.div_lt_self (by omega) (by omega)
          omega
        have hsn : sdigits n = sdigits (n / 10) ++ [Nat.digitChar (n % 10)] := by
          rw [sdigits]
          exact dif_neg (by omega)
        rw [if_neg h, ih (n / 10) hdiv (Nat.digitChar (n % 10) :: ds), hsn]
        simp

lemma repr_eq_sdigits (n : Nat) : Nat.repr n = (sdigits n).asString := by
  unfold Nat.repr Nat.toDigits
  rw [toDigitsCore_eq_sdigits (n + 1) n (by omega) []]
  simp

lemma digitVal_digitChar {m : Nat} (h : m < 10) :
    digitVal (Nat.digitChar m) = m := by
  interval_cases m <;> rfl

lemma valDigits_snoc (xs : List Char) (c : Char) :
    valDigits (xs ++ [c]) = 10 * valDigits xs + digitVal c := by
  simp [valDigits, List.foldl_append]

lemma valDigits_sdigits (n : Nat) : valDigits (sdigits n) = n := by
  induction n using Nat.strong_induction_on with
  | _ n ih =>
      by_cases h : n < 10
      · rw [sdigits, dif_pos h]
        simp [valDigits, digitVal_digitChar h]
      · rw [sdigits, dif_neg h, valDigits_snoc,
          ih (n / 10) (Nat.div_lt_self (by omega) (by omega)),
          digitVal_digitChar (Nat.mod_lt n (by omega))]
        omega

lemma nat_repr_inj {a b : Nat} (h : Nat.repr a = Nat.repr b) : a = b := by
  rw [repr_eq_sdigits, repr_eq_sdigits] at h
  have hd : sdigits a = sdigits b := congrArg String.data h
  calc a = valDigits (sdigits a) := (valDigits_sdigits a).symm
    _ = valDigits (sdigits b) := by rw [hd]
    _ = b := valDigits_sdigits b

lemma mkId_inj (nm : String) {a b : Nat} (h : mkId nm a = mkId nm b) : a = b := by
  apply nat_repr_inj
  have h2 := congrArg String.data h
  simp only [mkId, String.data_append, List.append_assoc,
    List.append_cancel_left_eq] at h2
  exact String.ext h2

/-! ### Id allocation invariant -/

lemma initCounters_get (k : TokKind) : initCounters.get k = 0 := by
  cases k <;> rfl

lemma lyric_ne_idkind {k : TokKind} (hk : IdKind k) : ¬ TokKind.lyric = k := by
  rcases hk with h | h | h <;> subst h <;> simp

lemma seqIds_append (nm : String) (a m n : Nat) :
    seqIds nm a m ++ seqIds nm (a + m) n = seqIds nm a (m + n) := by
  simp only [seqIds, List.range_add, List.map_append, List.map_map]
  congr 1
  have hfun : ((fun i => mkId nm (a + i + 1)) ∘ fun j => m + j) =
      fun i => mkId nm (a + m + i + 1) := by
    funext i
    simp only [Function.comp_apply]
    congr 1
    omega
  rw [hfun]

lemma seqIds_nodup (nm : String) (a len : Nat) : (seqIds nm a len).Nodup := by
  refine (List.nodup_range len).map ?_
  intro i j hij
  have h := mkId_inj nm hij
  omega

lemma IdInv_nil (k : TokKind) (c : Counters) : IdInv k c ([], c) := by
  simp [IdInv, countKind, idsOfKind, seqIds]

lemma IdInv_append {k : TokKind} {c0 c1 c2 : Counters} {ts1 ts2 : List Token}
    (h1 : IdInv k c0 (ts1, c1)) (h2 : IdInv k c1 (ts2, c2)) :
    IdInv k c0 (ts1 ++ ts2, c2) := by
  obtain ⟨h1c, h1i⟩ := h1
  obtain ⟨h2c, h2i⟩ := h2
  dsimp only at h1c h1i h2c h2i
  have hc : countKind k (ts1 ++ ts2) = countKind k ts1 + countKind k ts2 := by
    simp [countKind, List.filter_append]
  have hi : idsOfKind k (ts1 ++ ts2) = idsOfKind k ts1 ++ idsOfKind k ts2 := by
    simp [idsOfKind, List.filter_append]
  constructor
  · show c2.get k = c0.get k + countKind k (ts1 ++ ts2)
    rw [hc]
    omega
  · show idsOfKind k (ts1 ++ ts2) = seqIds (kindName k) (c0.get k) (countKind k (ts1 ++ ts2))
    rw [hc, hi, h1i, h2i, h1c, seqIds_append]

lemma IdInv_untracked (k : TokKind) (c : Counters) (ts : List Token)
    (h : ∀ t ∈ ts, ¬ t.type = k) : IdInv k c (ts, c) := by
  have hf : ts.filter (fun t => t.type == k) = [] := by
    rw [List.filter_eq_nil_iff]
    intro t ht
    simpa using h t ht
  simp [IdInv, countKind, idsOfKind, hf, seqIds]

lemma classifySymbolToken_inv (k : TokKind) (hk : IdKind k) (c : Char) (x y : Int)
    (cnt : Counters) :
    IdInv k cnt ([(classifySymbolToken c x y cnt).1], (classifySymbolToken c x y cnt).2) := by
  unfold classifySymbolToken
  rcases hk with hk | hk | hk <;> subst hk <;> split_ifs with h1 h2 <;>
    simp +decide [IdInv, countKind, idsOfKind, seqIds, Counters.get, kindName,
      lyricTok, List.range_succ]

lemma segGo_inv (k : TokKind) (hk : IdKind k) (x y : Int) :
    ∀ (cs pending : List Char) (cnt : Counters), IdInv k cnt (segGo x y cs pending cnt) := by
  intro cs
  induction cs with
  | nil =>
      intro pending cnt
      simp only [segGo]
      apply IdInv_untracked
      intro t ht
      have hty : t.type = TokKind.lyric := by
        by_cases h0 : stripChars pending.reverse = [] <;> simp [h0, lyricTok] at ht
        · simp [ht]
      rw [hty]
      exact lyric_ne_idkind hk
  | cons c cs ih =>
      intro pending cnt
      simp only [segGo]
      by_cases hc : isSymbolChar c
      · rw [if_pos hc]
        have hpres : IdInv k cnt
            ((if stripChars pending.reverse = [] then []
              else [lyricTok (stripChars pending.reverse) x y]), cnt) := by
          apply IdInv_untracked
          intro t ht
          by_cases h0 : stripChars pending.reverse = [] <;> simp [h0, lyricTok] at ht
          · rw [show t.type = TokKind.lyric from by simp [ht]]
            exact lyric_ne_idkind hk
        exact IdInv_append hpres
          (IdInv_append (classifySymbolToken_inv k hk c x y cnt)
            (ih [] (classifySymbolToken c x y cnt).2))
      · rw [if_neg hc]
        exact ih (c :: pending) cnt

lemma processWord_inv (k : TokKind) (hk : IdKind k) (lt : LineType) (w : Word)
    (cnt : Counters) : IdInv k cnt (processWord lt w cnt) := by
  simp only [processWord]
  by_cases h0 : stripChars w.text = []
  · rw [if_pos h0]
    exact IdInv_nil k cnt
  · rw [if_neg h0]
    cases lt with
    | note =>
        by_cases hs : (stripChars w.text).any isSymbolChar
        · rw [if_pos hs]
          exact segGo_inv k hk w.x w.y (stripChars w.text) [] cnt
        · rw [if_neg hs]
          apply IdInv_untracked
          intro t ht
          rw [show t.type = TokKind.lyric from by simp_all [lyricTok]]
          exact lyric_ne_idkind hk
    | octave =>
        rcases hk with hk | hk | hk <;> subst hk <;>
          simp +decide [IdInv, countKind, idsOfKind, seqIds, Counters.get, kindName,
            List.range_succ]
    | lyric => exact IdInv_nil k cnt

lemma accFold_inv (k : TokKind) (f : α → Counters → List Token × Counters)
    (hf : ∀ a cnt, IdInv k cnt (f a cnt)) :
    ∀ (l : List α) (cnt : Counters), IdInv k cnt (accFold f l cnt) := by
  intro l
  induction l with
  | nil => intro cnt; exact IdInv_nil k cnt
  | cons a l ih =>
      intro cnt
      simp only [accFold]
      exact IdInv_append (hf a cnt) (ih (f a cnt).2)

lemma processLine_inv (k : TokKind) (hk : IdKind k) (ws : List Word) (y : Int)
    (cnt : Counters) : IdInv k cnt (processLine ws y cnt) := by
  simp only [processLine]
  cases h : lineTypeOf (lineTextOf ws y) with
  | lyric =>
      cases hw : wordsAt ws y with
      | nil => exact IdInv_nil k cnt
      | cons w rest =>
          apply IdInv_untracked
          intro t ht
          rw [show t.type = TokKind.lyric from by simp_all]
          exact lyric_ne_idkind hk
  | note => exact accFold_inv k (processWord LineType.note) (processWord_inv k hk _) _ cnt
  | octave => exact accFold_inv k (processWord LineType.octave) (processWord_inv k hk _) _ cnt

lemma classify_inv (k : TokKind) (hk : IdKind k) (ws : List Word) :
    IdInv k initCounters
      (accFold (processLine ws) (sortIntDesc (dedupKeys (ws.map Word.y))) initCounters) :=
  accFold_inv k (processLine ws) (fun y cnt => processLine_inv k hk ws y cnt) _ _

/-! ### The association pass: frame and candidate properties -/

lemma associateToken_frame (notes : List Token) (t : Token) :
    (associateToken notes t).text = t.text ∧ (associateToken notes t).x = t.x ∧
    (associateToken notes t).y = t.y ∧ (associateToken notes t).type = t.type ∧
    (associateToken notes t).id = t.id := by
  obtain ⟨tt, tx, ty, tk, tid, ta⟩ := t
  cases tk <;> exact ⟨rfl, rfl, rfl, rfl, rfl⟩

lemma assoc_pred_comp (k : TokKind) (notes : List Token) :
    ((fun u : Token => u.type == k) ∘ associateToken notes) = (fun u => u.type == k) := by
  funext u
  simp only [Function.comp_apply, (associateToken_frame notes u).2.2.2.1]

lemma idsOfKind_map_assoc (k : TokKind) (notes ts : List Token) :
    idsOfKind k (ts.map (associateToken notes)) = idsOfKind k ts := by
  have hid : (Token.id ∘ associateToken notes) = Token.id := by
    funext u
    exact (associateToken_frame notes u).2.2.2.2
  unfold idsOfKind
  rw [List.filter_map, assoc_pred_comp, List.map_map, hid]

lemma countKind_map_assoc (k : TokKind) (notes ts : List Token) :
    countKind k (ts.map (associateToken notes)) = countKind k ts := by
  unfold countKind
  rw [List.filter_map, assoc_pred_comp, List.length_map]

lemma associateToken_octave {t : Token} (notes : List Token)
    (ht : t.type = TokKind.octave) :
    associateToken notes t =
      { t with associated_id := (closestNoteByY notes t).map Token.id } := by
  obtain ⟨tt, tx, ty, tk, tid, ta⟩ := t
  subst ht
  rfl

lemma stepY_fold_min (t : Token) : ∀ (l : List Token) (b : Token),
    ∃ m, l.foldl (stepY t) (some b) = some m ∧ (m = b ∨ m ∈ l) ∧
      (t.y - m.y).natAbs ≤ (t.y - b.y).natAbs ∧
      ∀ n ∈ l, (t.y - m.y).natAbs ≤ (t.y - n.y).natAbs := by
  intro l
  induction l with
  | nil =>
      intro b
      exact ⟨b, rfl, Or.inl rfl, le_refl _, by simp⟩
  | cons n l ih =>
      intro b
      simp only [List.foldl_cons]
      by_cases h : (t.y - n.y).natAbs < (t.y - b.y).natAbs
      · have hstep : stepY t (some b) n = some n := by simp [stepY, h]
        rw [hstep]
        obtain ⟨m, hm, hmem, hle, hall⟩ := ih n
        refine ⟨m, hm, ?_, by omega, ?_⟩
        · rcases hmem with h1 | h1
          · exact Or.inr (by simp [h1])
          · exact Or.inr (by simp [h1])
        · intro u hu
          rcases List.mem_cons.mp hu with h1 | h1
          · rw [h1]
            exact hle
          · exact hall u h1
      · have hstep : stepY t (some b) n = some b := by simp [stepY, h]
        rw [hstep]
        obtain ⟨m, hm, hmem, hle, hall⟩ := ih b
        refine ⟨m, hm, ?_, hle, ?_⟩
        · rcases hmem with h1 | h1
          · exact Or.inl h1
          · exact Or.inr (by simp [h1])
        · intro u hu
          rcases List.mem_cons.mp hu with h1 | h1
          · rw [h1]
            omega
          · exact hall u h1

lemma closestNoteByY_min (t : Token) (b : Token) (rest : List Token) :
    ∃ m, closestNoteByY (b :: rest) t = some m ∧ m ∈ b :: rest ∧
      ∀ n ∈ b :: rest, (t.y - m.y).natAbs ≤ (t.y - n.y).natAbs := by
  have hfold : closestNoteByY (b :: rest) t = rest.foldl (stepY t) (some b) := rfl
  obtain ⟨m, hm, hmem, hle, hall⟩ := stepY_fold_min t rest b
  refine ⟨m, by rw [hfold, hm], ?_, ?_⟩
  · rcases hmem with h1 | h1
    · exact h1 ▸ List.mem_cons_self b rest
    · exact List.mem_cons_of_mem b h1
  · intro n hn
    rcases List.mem_cons.mp hn with h1 | h1
    · rw [h1]
      exact hle
    · exact hall n h1

lemma closestNoteByY_y (notes : List Token) {t s : Token} (h : t.y = s.y) :
    closestNoteByY notes t = closestNoteByY notes s := by
  unfold closestNoteByY
  congr 1
  funext best n
  cases best <;> simp [stepY, h]

/-! ### No continuation token is ever emitted -/

def noCont (ts : List Token) : Prop := ∀ t ∈ ts, ¬ t.type = TokKind.continuation

lemma noCont_append {ts1 ts2 : List Token} (h1 : noCont ts1) (h2 : noCont ts2) :
    noCont (ts1 ++ ts2) := by
  intro t ht
  rcases List.mem_append.mp ht with h | h
  · exact h1 t h
  · exact h2 t h

lemma classifySymbolToken_noCont (c : Char) (x y : Int) (cnt : Counters) :
    ¬ (classifySymbolToken c x y cnt).1.type = TokKind.continuation := by
  unfold classifySymbolToken
  split_ifs <;> simp [lyricTok]

lemma segGo_noCont (x y : Int) : ∀ (cs pending : List Char) (cnt : Counters),
    noCont (segGo x y cs pending cnt).1 := by
  intro cs
  induction cs with
  | nil =>
      intro pending cnt t ht
      by_cases h0 : stripChars pending.reverse = [] <;> simp [segGo, h0, lyricTok] at ht
      · simp [ht]
  | cons c cs ih =>
      intro pending cnt
      simp only [segGo]
      by_cases hc : isSymbolChar c
      · rw [if_pos hc]
        intro t ht
        rcases List.mem_append.mp ht with h | h
        · by_cases h0 : stripChars pending.reverse = [] <;> simp [h0, lyricTok] at h
          · simp [h]
        · rcases List.mem_cons.mp h with h1 | h1
          · rw [h1]
            exact classifySymbolToken_noCont c x y cnt
          · exact ih [] (classifySymbolToken c x y cnt).2 t h1
      · rw [if_neg hc]
        exact ih (c :: pending) cnt

lemma processWord_noCont (lt : LineType) (w : Word) (cnt : Counters) :
    noCont (processWord lt w cnt).1 := by
  simp only [processWord]
  by_cases h0 : stripChars w.text = []
  · rw [if_pos h0]
    intro t ht
    simp at ht
  · rw [if_neg h0]
    cases lt with
    | note =>
        by_cases hs : (stripChars w.text).any isSymbolChar
        · rw [if_pos hs]
          exact segGo_noCont w.x w.y (stripChars w.text) [] cnt
        · rw [if_neg hs]
          intro t ht
          simp [lyricTok] at ht
          simp [ht]
    | octave =>
        intro t ht
        simp at ht
        simp [ht]
    | lyric =>
        intro t ht
        simp at ht

lemma accFold_noCont (f : α → Counters → List Token × Counters)
    (hf : ∀ a cnt, noCont (f a cnt).1) :
    ∀ (l : List α) (cnt : Counters), noCont (accFold f l cnt).1 := by
  intro l
  induction l with
  | nil => intro cnt t ht; simp [accFold] at ht
  | cons a l ih =>
      intro cnt
      simp only [accFold]
      exact noCont_append (hf a cnt) (ih (f a cnt).2)

lemma processLine_noCont (ws : List Word) (y : Int) (cnt : Counters) :
    noCont (processLine ws y cnt).1 := by
  simp only [processLine]
  cases h : lineTypeOf (lineTextOf ws y) with
  | lyric =>
      cases hw : wordsAt ws y with
      | nil => intro t ht; simp at ht
      | cons w rest =>
          intro t ht
          simp at ht
          simp [ht]
  | note => exact accFold_noCont (processWord LineType.note) (processWord_noCont _) _ cnt
  | octave => exact accFold_noCont (processWord LineType.octave) (processWord_noCont _) _ cnt

lemma classify_noCont (ws : List Word) : noCont (classify_and_annotate_text ws) :=
  accFold_noCont (processLine ws) (fun y cnt => processLine_noCont ws y cnt) _ _

lemma associate_noCont {ts : List Token} (h : noCont ts) :
    noCont (associate_symbols_to_notes ts) := by
  intro t ht
  obtain ⟨u, hu, hut⟩ := List.mem_map.mp ht
  rw [← hut, (associateToken_frame (notesOf ts) u).2.2.2.1]
  exact h u hu

/-! ### Segmentation coverage helpers -/

lemma dropWhile_eq_self_of (p : Char → Bool) (l : List Char)
    (h : ∀ c ∈ l, p c = false) : l.dropWhile p = l := by
  cases l with
  | nil => rfl
  | cons c cs => simp [List.dropWhile_cons, h c (by simp)]

lemma stripChars_eq_self {s : List Char} (h : ∀ c ∈ s, c.isWhitespace = false) :
    stripChars s = s := by
  unfold stripChars
  rw [dropWhile_eq_self_of _ s h,
    dropWhile_eq_self_of _ s.reverse (fun c hc => h c (List.mem_reverse.mp hc)),
    List.reverse_reverse]

lemma classifySymbolToken_text (c : Char) (x y : Int) (cnt : Counters) :
    (classifySymbolToken c x y cnt).1.text = [c] := by
  unfold classifySymbolToken
  split_ifs <;> rfl

lemma segGo_join (x y : Int) : ∀ (cs pending : List Char) (cnt : Counters),
    (∀ c ∈ cs, c.isWhitespace = false) → (∀ c ∈ pending, c.isWhitespace = false) →
    (((segGo x y cs pending cnt).1).map Token.text).flatten = pending.reverse ++ cs := by
  intro cs
  induction cs with
  | nil =>
      intro pending cnt _ hp
      have hrev : ∀ c ∈ pending.reverse, c.isWhitespace = false :=
        fun c hc => hp c (List.mem_reverse.mp hc)
      simp only [segGo]
      rw [stripChars_eq_self hrev]
      by_cases h0 : pending.reverse = []
      · simp [h0]
      · simp [h0, lyricTok]
  | cons c cs ih =>
      intro pending cnt hcs hp
      have hrev : ∀ d ∈ pending.reverse, d.isWhitespace = false :=
        fun d hd => hp d (List.mem_reverse.mp hd)
      have hcs2 : ∀ d ∈ cs, d.isWhitespace = false :=
        fun d hd => hcs d (by simp [hd])
      simp only [segGo]
      by_cases hc : isSymbolChar c
      · rw [if_pos hc]
        rw [stripChars_eq_self hrev]
        have hrest := ih [] (classifySymbolToken c x y cnt).2 hcs2 (by simp)
        by_cases h0 : pending.reverse = [] <;>
          simp [h0, lyricTok, classifySymbolToken_text, hrest]
      · rw [if_neg hc]
        have := ih (c :: pending) cnt hcs2
          (by
            intro d hd
            rcases List.mem_cons.mp hd with h1 | h1
            · rw [h1]
              exact hcs c (by simp)
            · exact hp d h1)
        rw [this]
        simp

/-! ### Glyph merger -/

lemma mergeGo_allClose : ∀ (gs : List Word) (cx base : Int) (ct : List Char),
    allClose cx base gs = true →
    mergeGo gs cx base ct =
      [⟨ct ++ (gs.map Word.text).flatten, (gs.map Word.x).getLastD cx, base⟩] := by
  intro gs
  induction gs with
  | nil =>
      intro cx base ct _
      simp [mergeGo]
  | cons g gs ih =>
      intro cx base ct h
      simp only [allClose, Bool.and_eq_true, decide_eq_true_eq] at h
      obtain ⟨⟨hx, hy⟩, hrest⟩ := h
      simp only [mergeGo]
      rw [if_pos ⟨hx, hy⟩, ih g.x base (ct ++ g.text) hrest]
      simp only [List.map_cons, List.flatten_cons, List.getLastD_cons, List.append_assoc]

/-! ### Claim theorems -/

/-- Claim C1 (corrected): on the note-line word `("d.", 10, 100)` the claimed
output — `note_1` at x=10 and `rhythm_1` at x=11 with
`associated_id = "note_1"` — is NOT what the code produces: every token of a
word inherits the word's own x, so the rhythm token also sits at x=10 and the
left-of association finds no note strictly to its left. -/
theorem C1_counterexample :
    ¬ (associate_symbols_to_notes (classify_and_annotate_text [⟨['d', '.'], 10, 100⟩]) =
      [{ text := ['d'], x := 10, y := 100, type := TokKind.note,
         id := "note_1", associated_id := none },
       { text := ['.'], x := 11, y := 100, type := TokKind.rhythm,
         id := "rhythm_1", associated_id := some "note_1" }]) := by decide

/-- Claim C1 (amended): segmentation plus association of the word
`("d.", 10, 100)` yields exactly two tokens, `note_1` and `rhythm_1`, both at
the word's coordinates x=10, y=100, and the rhythm token's `associated_id`
stays `none` because no note token lies strictly to its left. -/
theorem C1_amended :
    associate_symbols_to_notes (classify_and_annotate_text [⟨['d', '.'], 10, 100⟩]) =
      [{ text := ['d'], x := 10, y := 100, type := TokKind.note,
         id := "note_1", associated_id := none },
       { text := ['.'], x := 10, y := 100, type := TokKind.rhythm,
         id := "rhythm_1", associated_id := none }] := by decide

/-- Claim C2 (corrected): the octave-classified line consisting of the single
word `("12", 10, 120)` is emitted as ONE whole-word octave token, not as one
token per recognized symbol (which would be two). -/
theorem C2_counterexample :
    classify_and_annotate_text [⟨['1', '2'], 10, 120⟩] =
      [{ text := ['1', '2'], x := 10, y := 120, type := TokKind.octave,
         id := "octave_1", associated_id := none }] ∧
    ¬ (classify_and_annotate_text [⟨['1', '2'], 10, 120⟩]).length = 2 := by
  constructor
  · decide
  · decide

/-- Claim C2 (amended): on an octave-classified line every word whose stripped
text is nonempty becomes exactly one octave token carrying the whole stripped
word text and a fresh octave id — the per-symbol segmentation is applied only
to note-line words. -/
theorem C2_amended (w : Word) (cnt : Counters) (h : ¬ stripChars w.text = []) :
    processWord LineType.octave w cnt =
      ([{ text := stripChars w.text, x := w.x, y := w.y, type := TokKind.octave,
          id := mkId "octave" (cnt.octave + 1), associated_id := none }],
       { cnt with octave := cnt.octave + 1 }) := by
  simp only [processWord]
  rw [if_neg h]

/-- Claim C2 witness: the amended statement evaluated on the octave word
`("12", 10, 120)` with fresh counters. -/
theorem C2_amended_witness :
    processWord LineType.octave ⟨['1', '2'], 10, 120⟩ initCounters =
      ([{ text := ['1', '2'], x := 10, y := 120, type := TokKind.octave,
          id := mkId "octave" 1, associated_id := none }], ⟨0, 0, 1⟩) :=
  C2_amended ⟨['1', '2'], 10, 120⟩ initCounters (by decide)

/-- Claim C3 (corrected): the lyric line `[("go", 10, 80), ("on", 40, 80)]`
has two words but produces a single lyric token (the whole joined line text),
not two. -/
theorem C3_counterexample :
    classify_and_annotate_text [⟨['g', 'o'], 10, 80⟩, ⟨['o', 'n'], 40, 80⟩] =
      [{ text := ['g', 'o', ' ', 'o', 'n'], x := 10, y := 80,
         type := TokKind.lyric, id := "", associated_id := none }] ∧
    ¬ (classify_and_annotate_text
        [⟨['g', 'o'], 10, 80⟩, ⟨['o', 'n'], 40, 80⟩]).length = 2 := by
  constructor
  · decide
  · decide

/-- Claim C3 (amended): a lyric-classified line is collapsed into exactly one
lyric token with no id: its text is the space-joined text of all the line's
words and its x is the first word's x. -/
theorem C3_amended (ws : List Word) (y : Int) (cnt : Counters) (w : Word)
    (rest : List Word)
    (hl : lineTypeOf (lineTextOf ws y) = LineType.lyric)
    (hw : wordsAt ws y = w :: rest) :
    processLine ws y cnt =
      ([{ text := lineTextOf ws y, x := w.x, y := y, type := TokKind.lyric,
          id := "", associated_id := none }], cnt) := by
  simp only [processLine, hl, hw]

/-- Claim C3 witness: the amended statement on the two-word lyric line at
y=80. -/
theorem C3_amended_witness :
    processLine [⟨['g', 'o'], 10, 80⟩, ⟨['o', 'n'], 40, 80⟩] 80 initCounters =
      ([{ text := ['g', 'o', ' ', 'o', 'n'], x := 10, y := 80,
          type := TokKind.lyric, id := "", associated_id := none }],
       initCounters) :=
  C3_amended [⟨['g', 'o'], 10, 80⟩, ⟨['o', 'n'], 40, 80⟩] 80 initCounters
    ⟨['g', 'o'], 10, 80⟩ [⟨['o', 'n'], 40, 80⟩] (by decide) (by decide)

/-- Claim C4 (corrected): merging the glyphs `("a", 0, 100)` and
`("b", 10, 97)` (gaps 10 < 20 and 3 < 5) produces the word `("ab", 10, 100)`:
the x comes from the last glyph but the y stays that of the FIRST glyph, so
the claimed word `("ab", 10, 97)` is not produced. -/
theorem C4_counterexample :
    mergeGlyphs [⟨['a'], 0, 100⟩, ⟨['b'], 10, 97⟩] = [⟨['a', 'b'], 10, 100⟩] ∧
    ¬ mergeGlyphs [⟨['a'], 0, 100⟩, ⟨['b'], 10, 97⟩] = [⟨['a', 'b'], 10, 97⟩] := by
  constructor
  · decide
  · decide

/-- Claim C4 (amended): when a run of glyphs merges into a single word (each
glyph within 20 horizontal units of its predecessor and within 5 vertical
units of the run's opening glyph), the word's text is the concatenation of the
glyph texts, its x is the LAST glyph's x, and its y is the FIRST glyph's y —
`current_y` is never updated while merging. -/
theorem C4_amended (g : Word) (gs : List Word) (h : allClose g.x g.y gs = true) :
    mergeGlyphs (g :: gs) =
      [⟨g.text ++ (gs.map Word.text).flatten, (gs.map Word.x).getLastD g.x, g.y⟩] := by
  simp only [mergeGlyphs]
  exact mergeGo_allClose gs g.x g.y g.text h

/-- Claim C4 witness: the amended statement on the two glyphs of the
counterexample. -/
theorem C4_amended_witness :
    mergeGlyphs [⟨['a'], 0, 100⟩, ⟨['b'], 10, 97⟩] = [⟨['a', 'b'], 10, 100⟩] :=
  C4_amended ⟨['a'], 0, 100⟩ [⟨['b'], 10, 97⟩] (by decide)

/-- Claim C5 (corrected): on the note-line word `("a d", 10, 100)` the emitted
tokens are the lyric fragment `"a"` and the note `"d"`; their concatenation is
`"ad"`, not the original `"a d"` — the interstitial `.strip()` calls drop the
whitespace at fragment boundaries. -/
theorem C5_counterexample :
    ¬ (((classify_and_annotate_text [⟨['a', ' ', 'd'], 10, 100⟩]).map
        Token.text).flatten = ['a', ' ', 'd']) := by decide

/-- Claim C5 (amended): for a note-line word whose text contains no whitespace
characters, concatenating the texts of all tokens emitted for the word, in
order, reconstructs the word's text exactly; whitespace inside a word is the
only thing the boundary stripping can drop. -/
theorem C5_amended (w : Word) (cnt : Counters)
    (h : ∀ c ∈ w.text, c.isWhitespace = false) :
    (((processWord LineType.note w cnt).1).map Token.text).flatten = w.text := by
  simp only [processWord]
  rw [stripChars_eq_self h]
  by_cases h0 : w.text = []
  · rw [if_pos h0]
    simp [h0]
  · rw [if_neg h0]
    by_cases hs : w.text.any isSymbolChar
    · rw [if_pos hs]
      rw [segGo_join w.x w.y w.text [] cnt h (by simp)]
      simp
    · rw [if_neg hs]
      simp [lyricTok]

/-- Claim C5 witness: the amended statement on the whitespace-free word
`("d.", 10, 100)`. -/
theorem C5_amended_witness :
    (((processWord LineType.note ⟨['d', '.'], 10, 100⟩ initCounters).1).map
      Token.text).flatten = ['d', '.'] :=
  C5_amended ⟨['d', '.'], 10, 100⟩ initCounters (by decide)

/-- Claim C6 (corrected): in the note-classified line's word `("d5", 10, 100)`
the digit `5` is matched by the combined pattern but NO octave token is
emitted anywhere — the note-line symbol classifier has no octave branch and
the digit falls through to the lyric fallback. -/
theorem C6_counterexample :
    ¬ ∃ t ∈ classify_and_annotate_text [⟨['d', '5'], 10, 100⟩],
        t.type = TokKind.octave := by decide

/-- Claim C6 (amended): inside a note-classified line's word, a matched symbol
character that is neither a solfa note letter / hyphen nor rhythm punctuation
— i.e. exactly the digits and the octave-bar glyph of the octave class — is
emitted as a lyric token with empty id, consuming no counter; it is never an
octave token. -/
theorem C6_amended (c : Char) (x y : Int) (cnt : Counters)
    (hn : isNoteChar c = false) (hr : isRhythmChar c = false) :
    classifySymbolToken c x y cnt = (lyricTok [c] x y, cnt) := by
  simp [classifySymbolToken, hn, hr]

/-- Claim C6 witness: the amended statement at the octave-class digit `5`. -/
theorem C6_amended_witness :
    classifySymbolToken '5' 10 100 initCounters =
      (lyricTok ['5'] 10 100, initCounters) :=
  C6_amended '5' 10 100 initCounters (by decide) (by decide)

/-- Claim C7 (confirmed): for every id-carrying kind (note, rhythm, octave),
the ids assigned over a whole run of the classifier are exactly
`kind_1, …, kind_N` in emission order, hence pairwise distinct, and the
association pass neither reuses nor reassigns them. -/
theorem C7_id_uniqueness (ws : List Word) (k : TokKind) (hk : IdKind k) :
    idsOfKind k (classify_and_annotate_text ws) =
      seqIds (kindName k) 0 (countKind k (classify_and_annotate_text ws)) ∧
    (idsOfKind k (classify_and_annotate_text ws)).Nodup ∧
    idsOfKind k (associate_symbols_to_notes (classify_and_annotate_text ws)) =
      idsOfKind k (classify_and_annotate_text ws) := by
  obtain ⟨hc, hi⟩ := classify_inv k hk ws
  have h0 := initCounters_get k
  refine ⟨?_, ?_, ?_⟩
  · unfold classify_and_annotate_text
    rw [hi, h0]
  · unfold classify_and_annotate_text
    rw [hi]
    exact seqIds_nodup (kindName k) (initCounters.get k) _
  · unfold associate_symbols_to_notes
    exact idsOfKind_map_assoc k _ _

/-- Claim C7 witness: the id sequence of the note tokens of the run on
`[("d.", 10, 100)]` is `note_1, …, note_N` for `N` the number of note tokens
emitted. -/
theorem C7_id_uniqueness_witness :
    idsOfKind TokKind.note (classify_and_annotate_text [⟨['d', '.'], 10, 100⟩]) =
      seqIds (kindName TokKind.note) 0
        (countKind TokKind.note (classify_and_annotate_text [⟨['d', '.'], 10, 100⟩])) :=
  (C7_id_uniqueness [⟨['d', '.'], 10, 100⟩] TokKind.note (Or.inl rfl)).1

/-- Claim C8 (confirmed): the associator links every octave token to a note
token chosen among ALL note tokens of the page: when at least one note exists,
the chosen note attains the minimum `|Δy|` over all notes, and the choice does
not depend on the octave token's x; when no note token exists the
`associated_id` is simply `none` (never an error). -/
theorem C8_octave_association (ts : List Token) (t : Token)
    (hmem : t ∈ ts) (ht : t.type = TokKind.octave) :
    associateToken (notesOf ts) t ∈ associate_symbols_to_notes ts ∧
    (notesOf ts = [] → (associateToken (notesOf ts) t).associated_id = none) ∧
    (notesOf ts ≠ [] →
      ∃ n ∈ notesOf ts, (associateToken (notesOf ts) t).associated_id = some n.id ∧
        ∀ m ∈ notesOf ts, (t.y - n.y).natAbs ≤ (t.y - m.y).natAbs) ∧
    ∀ x2 : Int, (associateToken (notesOf ts) { t with x := x2 }).associated_id =
      (associateToken (notesOf ts) t).associated_id := by
  refine ⟨List.mem_map_of_mem _ hmem, ?_, ?_, ?_⟩
  · intro h0
    rw [associateToken_octave (notesOf ts) ht]
    simp [closestNoteByY, h0]
  · intro h0
    obtain ⟨b, rest, hbr⟩ := List.exists_cons_of_ne_nil h0
    obtain ⟨m, hm, hmmem, hmin⟩ := closestNoteByY_min t b rest
    refine ⟨m, by rw [hbr]; exact hmmem, ?_, ?_⟩
    · rw [associateToken_octave (notesOf ts) ht]
      simp [hbr, hm]
    · intro u hu
      exact hmin u (by rw [← hbr]; exact hu)
  · intro x2
    have ht2 : ({ t with x := x2 } : Token).type = TokKind.octave := ht
    rw [associateToken_octave (notesOf ts) ht2, associateToken_octave (notesOf ts) ht]
    have hy : ({ t with x := x2 } : Token).y = t.y := rfl
    rw [closestNoteByY_y (notesOf ts) hy]

/-- Claim C8 witness: on a page holding the note `note_1` at y=100 and the
octave token at y=121, the octave token is associated with a note attaining
the minimal vertical distance. -/
theorem C8_octave_association_witness :
    ∃ n ∈ notesOf [(⟨['d'], 10, 100, TokKind.note, "note_1", none⟩ : Token),
        ⟨['2'], 12, 121, TokKind.octave, "octave_1", none⟩],
      (associateToken
          (notesOf [(⟨['d'], 10, 100, TokKind.note, "note_1", none⟩ : Token),
            ⟨['2'], 12, 121, TokKind.octave, "octave_1", none⟩])
          ⟨['2'], 12, 121, TokKind.octave, "octave_1", none⟩).associated_id =
        some n.id ∧
      ∀ m ∈ notesOf [(⟨['d'], 10, 100, TokKind.note, "note_1", none⟩ : Token),
          ⟨['2'], 12, 121, TokKind.octave, "octave_1", none⟩],
        (121 - n.y).natAbs ≤ (121 - m.y).natAbs :=
  (C8_octave_association
    [⟨['d'], 10, 100, TokKind.note, "note_1", none⟩,
     ⟨['2'], 12, 121, TokKind.octave, "octave_1", none⟩]
    ⟨['2'], 12, 121, TokKind.octave, "octave_1", none⟩
    (by decide) rfl).2.2.1 (by decide)

/-- Claim C9 (confirmed): no token of kind `continuation` is ever emitted by
the pipeline — every hyphen matched inside a note-classified line's word is
classified as a note token and consumes a fresh note id. -/
theorem C9_no_continuation (ws : List Word) (x y : Int) (cnt : Counters) :
    ((associate_symbols_to_notes (classify_and_annotate_text ws)).all
      (fun t => !(t.type == TokKind.continuation))) = true ∧
    classifySymbolToken '-' x y cnt =
      ({ text := ['-'], x := x, y := y, type := TokKind.note,
         id := mkId "note" (cnt.note + 1), associated_id := none },
       { cnt with note := cnt.note + 1 }) := by
  constructor
  · rw [List.all_eq_true]
    intro t ht
    have h := associate_noCont (classify_noCont ws) t ht
    simpa using h
  · rfl

/-- Claim C10 (confirmed): the association pass is a pure frame over
everything except `associated_id`: it preserves the number of tokens, their
order, and every token's text, x, y, type and id. -/
theorem C10_association_frame (ts : List Token) :
    (associate_symbols_to_notes ts).length = ts.length ∧
    (associate_symbols_to_notes ts).map (fun t => (t.text, t.x, t.y, t.type, t.id)) =
      ts.map (fun t => (t.text, t.x, t.y, t.type, t.id)) := by
  constructor
  · simp [associate_symbols_to_notes]
  · unfold associate_symbols_to_notes
    rw [List.map_map]
    have hfun : ((fun t : Token => (t.text, t.x, t.y, t.type, t.id)) ∘
        associateToken (notesOf ts)) = fun t => (t.text, t.x, t.y, t.type, t.id) := by
      funext u
      obtain ⟨h1, h2, h3, h4, h5⟩ := associateToken_frame (notesOf ts) u
      simp [Function.comp_apply, h1, h2, h3, h4, h5]
    rw [hfun]
